import Mathlib

/-!
Verification development for the encoding resolver of `src/render/src/fontentry.rs`
(`FontEntry::build`).

The resolver is parametric over three external collaborators, which we model as
explicit inputs:
  * the glyph source (`Arc<dyn Font>` from the `font` crate): record of lookup
    functions (`GlyphSource`);
  * the font descriptor (`RcRef<PdfFont>` from the `pdf` crate): record of the
    accessors used by `build` (`PdfFontDesc`);
  * the named-encoding library (`pdf_encoding` crate): transcoders, encoding
    forward maps and the glyph-name-to-Unicode table (`EncodingLib`).

Machine integers are modelled as `Nat` with explicit `% 2^16` where the source
performs `as u16` casts.  Rust `char` values are modelled as Unicode scalar
values (`Nat` with the surrogate gap), Rust strings used as Unicode text as
`List Nat` of scalar values, and glyph names as `List Char`.  The `HashMap`
carried by `TextEncoding::Cmap` is modelled as an insertion list where a later
insert shadows an earlier one for lookups (`cmapGet` finds the most recent
insert), which matches `HashMap::insert` overwrite semantics; `cmapIsEmpty`
agrees with `HashMap::is_empty` since entries are only ever inserted.
-/

/-- Unicode scalar value (model of Rust `char`). -/
abbrev UScalar := Nat

/-- A Unicode string as a list of scalar values (model of Rust `String`/`&str`
where only `chars()` is used on it). -/
abbrev UStr := List UScalar

/-- A glyph name as its character sequence (model of Rust `String` names; the
operations `build` performs on them - equality, `find(".")`, prefix slicing -
are modelled on the character list). -/
abbrev GlyphName := List Char

/-- Model of `std::char::from_u32`: `some n` iff `n` is a Unicode scalar value. -/
def char_from_u32 (n : Nat) : Option UScalar :=
  if n < 0x110000 ∧ ¬ (0xD800 ≤ n ∧ n ≤ 0xDFFF) then some n else none

/-- Glyph identifier: the `u32` payload of `font::GlyphId`. -/
abbrev GlyphId := Nat

/-- A `TextEncoding::Cmap` entry: glyph id and optional associated Unicode
character, modelling `(GlyphId, Option<char>)`. -/
abbrev Entry := GlyphId × Option UScalar

/-- The cmap `HashMap<u16, Entry>` as an insertion list (most recent insert
first once reversed by `cmapGet`; see module comment). -/
abbrev Cmap := List (Nat × Entry)

/-- `HashMap::insert` on the insertion-list model: prepend; `cmapGet` takes the
first (most recently inserted) binding for a key, so insert overwrites. -/
def cmapInsert (m : Cmap) (k : Nat) (v : Entry) : Cmap := (k, v) :: m

/-- `HashMap::get` on the insertion-list model. -/
def cmapGet (m : Cmap) (k : Nat) : Option Entry :=
  (m.find? (fun p => p.1 == k)).map Prod.snd

/-- `HashMap::is_empty` on the insertion-list model (sound because the code
only inserts, never removes). -/
def cmapIsEmpty (m : Cmap) : Bool := m.isEmpty

/-- `pdf::encoding::BaseEncoding` (the variants matched by `build`; `other`
stands for every remaining variant). -/
inductive BaseEncoding where
  | standardEncoding
  | symbolEncoding
  | winAnsiEncoding
  | macRomanEncoding
  | macExpertEncoding
  | identityH
  | other (name : String)
deriving DecidableEq, Repr

/-- `pdf_encoding::Encoding` (the variants used by `build`). -/
inductive Encoding where
  | adobeStandard
  | adobeSymbol
  | winAnsiEncoding
  | macRomanEncoding
  | adobeExpert
  | unicode
deriving DecidableEq, Repr

/-- A byte-to-codepoint transcoder (`pdf_encoding` `.translate`). -/
abbrev Transcoder := Nat → Option Nat

/-- `pdf::encoding::Encoding`: declared base encoding plus the differences
overrides.  The source type stores differences as `HashMap<u32, String>`
(distinct `u32` keys); we model it as an association list in iteration order. -/
structure PdfEncodingDict where
  base : BaseEncoding
  differences : List (Nat × GlyphName)

/-- The glyph source (`dyn Font`): native encoding report and the three glyph
lookup capabilities used by `build`. -/
structure GlyphSource where
  encoding : Option Encoding
  gid_for_codepoint : Nat → Option GlyphId
  gid_for_unicode_codepoint : Nat → Option GlyphId
  gid_for_name : GlyphName → Option GlyphId

/-- `u16 -> String` map behind `pdf::font::ToUnicodeMap::get` (we model `get`
keyed by arbitrary `Nat`; `build` always calls it at `cid as u16`). -/
abbrev ToUnicodeMap := Nat → Option UStr

/-- `pdf::error::PdfError`: `other` is `PdfError::Other { msg }`, `upstream`
stands for any structural error propagated from a descriptor accessor. -/
inductive PdfError where
  | other (msg : String)
  | upstream (code : Nat)
deriving DecidableEq, Repr

/-- Per-glyph width table `pdf::font::Widths`; its contents are irrelevant to
the resolver, which only moves it into the result. -/
abbrev Widths := Unit

/-- The font descriptor (`RcRef<PdfFont>`) restricted to the accessors `build`
uses.  `to_unicode` models `pdf_font.to_unicode(resolve).transpose()` (an
`Option<Result<..>>` already transposed into `Result<Option<..>>`), `widths`
models `pdf_font.widths(resolve)`, both fallible with a structural error. -/
structure PdfFontDesc where
  is_cid : Bool
  encoding : Option PdfEncodingDict
  to_unicode : Except PdfError (Option ToUnicodeMap)
  cid_to_gid_map : Option (List Nat)
  widths : Except PdfError (Option Widths)
  name : Option String

/-- The named-encoding library (`pdf_encoding` crate).
`encTo s d` models `s.to(d)` (may be `None`: no transcoder for the pair).
`forward_map s` models `s.forward_map().unwrap()`: the source unwraps the
option, and the library provides a forward map for every encoding `build`
constructs, so we model it as total.  `glyphname_to_unicode` models the
crate-level glyph-name lookup returning an `Option<&str>`. -/
structure EncodingLib where
  encTo : Encoding → Encoding → Option Transcoder
  forward_map : Encoding → (Nat → Option UScalar)
  glyphname_to_unicode : GlyphName → Option UStr

/-- `render::fontentry::TextEncoding`. -/
inductive TextEncoding where
  | CID
  | Cmap (m : Cmap)
deriving DecidableEq, Repr

/-- `render::fontentry::FontEntry` (the glyph-source handle and descriptor
reference are carried along unchanged, as in the source). -/
structure FontEntry where
  font : GlyphSource
  pdf_font : PdfFontDesc
  encoding : TextEncoding
  widths : Option Widths
  is_cid : Bool
  name : String

/-- The `source_encoding` match in `build`: map the declared base encoding to
one of the five standard named encodings, `none` otherwise (logged, non-fatal). -/
def sourceEncodingOf : Option BaseEncoding → Option Encoding
  | some BaseEncoding.standardEncoding => some Encoding.adobeStandard
  | some BaseEncoding.symbolEncoding => some Encoding.adobeSymbol
  | some BaseEncoding.winAnsiEncoding => some Encoding.winAnsiEncoding
  | some BaseEncoding.macRomanEncoding => some Encoding.macRomanEncoding
  | some BaseEncoding.macExpertEncoding => some Encoding.adobeExpert
  | _ => none

/-- The `if let Some(x) = .. { cmap.insert(key, val(x)); }` step shared by the
cmap-building loops of `build`. -/
def condInsertStep {β : Type} (m : Cmap) (key : Nat) (x? : Option β)
    (val : β → Entry) : Cmap :=
  match x? with
  | some x => cmapInsert m key (val x)
  | none => m

/-- The CID branch of `build`: for each `(cid, gid)` of
`map.iter().enumerate()`, insert at key `cid as u16` the glyph `gid as u32`
paired with the first char of `to_unicode.get(cid as u16)`. -/
def cidCmap (to_unicode : Option ToUnicodeMap) (map : List Nat) : Cmap :=
  map.enum.foldl
    (fun m p =>
      cmapInsert m (p.1 % 65536)
        (p.2, (to_unicode.bind (fun u => u (p.1 % 65536))).bind List.head?))
    []

/-- The `(Some(source), Some(dest))` arm of `build`: obtain a transcoder (or
insert nothing), then for each byte 0-255 translate, look the glyph up by
codepoint and pair it with `forward.get(b as u8)` from the source encoding. -/
def transcoderPass (lib : EncodingLib) (font : GlyphSource)
    (source dest : Encoding) : Cmap :=
  match lib.encTo source dest with
  | some transcoder =>
    (List.range 256).foldl
      (fun m b =>
        condInsertStep m b ((transcoder b).bind font.gid_for_codepoint)
          (fun gid => (gid, lib.forward_map source (b % 256))))
      []
  | none => []

/-- The `(Some(source), None)` arm of `build`: transcode each byte to Unicode
and look the glyph up by Unicode codepoint. -/
def unicodePass (lib : EncodingLib) (font : GlyphSource) (source : Encoding) : Cmap :=
  match lib.encTo source Encoding.unicode with
  | some encoder =>
    (List.range 256).foldl
      (fun m b =>
        condInsertStep m b ((encoder b).bind font.gid_for_unicode_codepoint)
          (fun gid => (gid, (encoder b).bind char_from_u32)))
      []
  | none => []

/-- The wildcard arm of `build` ("assuming same encoding"): query the glyph
source directly with each byte as a codepoint, synthesizing `0xf000 + cp`. -/
def fallbackPass (font : GlyphSource) : Cmap :=
  (List.range 256).foldl
    (fun m cp =>
      condInsertStep m (cp % 65536) (font.gid_for_codepoint cp)
        (fun gid => (gid, char_from_u32 (0xf000 + cp))))
    []

/-- The `match (source_encoding, font_encoding)` pass of `build` that populates
the fresh cmap before the differences overlay. -/
def simplePassCmap (lib : EncodingLib) (font : GlyphSource)
    (source_encoding : Option Encoding) (font_encoding : Option Encoding) : Cmap :=
  match source_encoding, font_encoding with
  | some source, some dest => transcoderPass lib font source dest
  | some source, none => unicodePass lib font source
  | _, _ => fallbackPass font

/-- Unicode association computed for a differences glyph name:
`glyphname_to_unicode(name).or_else(|| name.find(".").and_then(|i|
glyphname_to_unicode(&name[..i]))).and_then(|s| s.chars().next())`.
`name.find(".")` succeeds iff the name contains a dot, and `&name[..i]` is the
prefix before the first dot, i.e. `takeWhile (· ≠ '.')`. -/
def diffUnicode (lib : EncodingLib) (name : GlyphName) : Option UScalar :=
  (match lib.glyphname_to_unicode name with
   | some s => some s
   | none =>
     if name.contains '.' then
       lib.glyphname_to_unicode (name.takeWhile (fun c => c ≠ '.'))
     else none).bind List.head?

/-- The differences overlay of `build`: for each `(cp, name)` pair, insert at
key `cp as u16` when the glyph source resolves the name, skip otherwise. -/
def applyDifferences (lib : EncodingLib) (font : GlyphSource)
    (diffs : List (Nat × GlyphName)) (m : Cmap) : Cmap :=
  diffs.foldl
    (fun m p =>
      condInsertStep m (p.1 % 65536) (font.gid_for_name p.2)
        (fun gid => (gid, diffUnicode lib p.2)))
    m

/-- The whole simple-byte-encoding cmap of `build` (transcoder / unicode /
identity-fallback pass, then the differences overlay when the descriptor has
an encoding dictionary). -/
def simpleCmap (lib : EncodingLib) (font : GlyphSource)
    (encoding : Option PdfEncodingDict) : Cmap :=
  let source_encoding := sourceEncodingOf (encoding.map (fun e => e.base))
  let cmap0 := simplePassCmap lib font source_encoding font.encoding
  match encoding with
  | some e => applyDifferences lib font e.differences cmap0
  | none => cmap0

/-- The encoding decision tree of `build` together with the final `is_cid`
flag: CID-array branch, Identity-H branch, simple byte-encoding branch with
the empty-map degradation to `TextEncoding::CID`. -/
def resolvedEncoding (lib : EncodingLib) (font : GlyphSource)
    (pdf_font : PdfFontDesc) (to_unicode : Option ToUnicodeMap) :
    TextEncoding × Bool :=
  match pdf_font.cid_to_gid_map with
  | some map => (TextEncoding.Cmap (cidCmap to_unicode map), true)
  | none =>
    if pdf_font.encoding.map (fun e => e.base) = some BaseEncoding.identityH then
      (TextEncoding.CID, true)
    else
      let cmap := simpleCmap lib font pdf_font.encoding
      if cmapIsEmpty cmap then
        (TextEncoding.CID, pdf_font.is_cid)
      else
        (TextEncoding.Cmap cmap, pdf_font.is_cid)

/-- `FontEntry::build`.  Follows the source line by line: fetch `to_unicode`
(`t!` propagates its error), pick the encoding branch (`resolvedEncoding`),
then fetch widths (`?` propagates), then the mandatory name ("font has no
name" when absent). -/
def FontEntry.build (lib : EncodingLib) (font : GlyphSource)
    (pdf_font : PdfFontDesc) : Except PdfError FontEntry :=
  match pdf_font.to_unicode with
  | Except.error e => Except.error e
  | Except.ok to_unicode =>
    let encFlag := resolvedEncoding lib font pdf_font to_unicode
    match pdf_font.widths with
    | Except.error e => Except.error e
    | Except.ok widths =>
      match pdf_font.name with
      | none => Except.error (PdfError.other "font has no name")
      | some name =>
        Except.ok
          { font := font
            pdf_font := pdf_font
            encoding := encFlag.1
            widths := widths
            is_cid := encFlag.2
            name := name }

/-! ### Concrete instances used to exercise the theorems on closed inputs -/

/-- A library with no transcoders, empty forward maps and an empty glyph-name
table. -/
def noLib : EncodingLib :=
  { encTo := fun _ _ => none
    forward_map := fun _ _ => none
    glyphname_to_unicode := fun _ => none }

/-- A glyph source that resolves nothing and declares no native encoding. -/
def noFont : GlyphSource :=
  { encoding := none
    gid_for_codepoint := fun _ => none
    gid_for_unicode_codepoint := fun _ => none
    gid_for_name := fun _ => none }

/-- Descriptor with a two-entry CID-to-glyph array. -/
def c1pf : PdfFontDesc :=
  { is_cid := false
    encoding := none
    to_unicode := Except.ok none
    cid_to_gid_map := some [5, 6]
    widths := Except.ok none
    name := some "C1" }

/-- The entry `build` produces for `c1pf`. -/
def c1fe : FontEntry :=
  { font := noFont
    pdf_font := c1pf
    encoding := TextEncoding.Cmap (cidCmap none [5, 6])
    widths := none
    is_cid := true
    name := "C1" }

/-- A glyph source declaring a native encoding and owning a glyph for every
codepoint. -/
def c2font : GlyphSource :=
  { encoding := some Encoding.adobeStandard
    gid_for_codepoint := fun _ => some 1
    gid_for_unicode_codepoint := fun _ => none
    gid_for_name := fun _ => none }

/-- Descriptor with a recognized base encoding and no differences; paired with
`noLib` (no transcoder between WinAnsi and the font's AdobeStandard). -/
def c2pf : PdfFontDesc :=
  { is_cid := false
    encoding := some { base := BaseEncoding.winAnsiEncoding, differences := [] }
    to_unicode := Except.ok none
    cid_to_gid_map := none
    widths := Except.ok none
    name := some "C2" }

/-- Descriptor declaring IdentityH and no CID array. -/
def c3pf : PdfFontDesc :=
  { is_cid := false
    encoding := some { base := BaseEncoding.identityH, differences := [] }
    to_unicode := Except.ok none
    cid_to_gid_map := none
    widths := Except.ok none
    name := some "C3" }

/-- The entry `build` produces for `c3pf`. -/
def c3fe : FontEntry :=
  { font := noFont
    pdf_font := c3pf
    encoding := TextEncoding.CID
    widths := none
    is_cid := true
    name := "C3" }

/-- A transcoder shifting each byte by 1000 (stand-in for a concrete
byte-to-destination-codepoint table). -/
def c4tr : Transcoder := fun b => some (b + 1000)

/-- Library holding `c4tr` for every encoding pair; its WinAnsi forward map
sends byte 65 to the scalar value of `A`. -/
def c4lib : EncodingLib :=
  { encTo := fun _ _ => some c4tr
    forward_map := fun _ b => if b = 65 then some 65 else none
    glyphname_to_unicode := fun _ => none }

/-- Glyph source whose codepoint 1065 and Unicode 65 lookups agree (glyph 7),
as for a font whose native encoding matches the transcoder's destination. -/
def c4font : GlyphSource :=
  { encoding := some Encoding.macRomanEncoding
    gid_for_codepoint := fun cp => if cp = 1065 then some 7 else none
    gid_for_unicode_codepoint := fun u => if u = 65 then some 7 else none
    gid_for_name := fun _ => none }

/-- WinAnsi base encoding, no differences. -/
def c4dict : PdfEncodingDict :=
  { base := BaseEncoding.winAnsiEncoding, differences := [] }

/-- Descriptor for the known-pair transcoding instance. -/
def c4pf : PdfFontDesc :=
  { is_cid := false
    encoding := some c4dict
    to_unicode := Except.ok none
    cid_to_gid_map := none
    widths := Except.ok none
    name := some "C4" }

/-- The entry `build` produces for `c4pf`. -/
def c4fe : FontEntry :=
  { font := c4font
    pdf_font := c4pf
    encoding := TextEncoding.Cmap (simpleCmap c4lib c4font (some c4dict))
    widths := none
    is_cid := false
    name := "C4" }

/-- Glyph source with a glyph for codepoint 0 and for the name `beta`. -/
def c5font : GlyphSource :=
  { encoding := none
    gid_for_codepoint := fun cp => if cp = 0 then some 3 else none
    gid_for_unicode_codepoint := fun _ => none
    gid_for_name := fun nm => if nm = ['b', 'e', 't', 'a'] then some 9 else none }

/-- Unrecognized base encoding (so the fallback pass fires) plus a differences
entry overriding code 0. -/
def c5dict : PdfEncodingDict :=
  { base := BaseEncoding.other "X", differences := [(0, ['b', 'e', 't', 'a'])] }

/-- Descriptor for the differences-override instance. -/
def c5pf : PdfFontDesc :=
  { is_cid := false
    encoding := some c5dict
    to_unicode := Except.ok none
    cid_to_gid_map := none
    widths := Except.ok none
    name := some "C5" }

/-- Glyph source with a glyph for codepoint 2 only. -/
def c6font : GlyphSource :=
  { encoding := none
    gid_for_codepoint := fun cp => if cp = 2 then some 4 else none
    gid_for_unicode_codepoint := fun _ => none
    gid_for_name := fun _ => none }

/-- Descriptor with an unrecognized base encoding and no differences, paired
with `noFont`: nothing resolves, the map stays empty. -/
def c7pf : PdfFontDesc :=
  { is_cid := false
    encoding := some { base := BaseEncoding.other "Q", differences := [] }
    to_unicode := Except.ok none
    cid_to_gid_map := none
    widths := Except.ok none
    name := some "C7" }

/-- The entry `build` produces for `c7pf`. -/
def c7fe : FontEntry :=
  { font := noFont
    pdf_font := c7pf
    encoding := TextEncoding.CID
    widths := none
    is_cid := false
    name := "C7" }

/-- Descriptor whose `to_unicode` accessor fails structurally. -/
def c8pfA : PdfFontDesc :=
  { is_cid := false
    encoding := none
    to_unicode := Except.error (PdfError.upstream 1)
    cid_to_gid_map := none
    widths := Except.ok none
    name := some "C8" }

/-- Descriptor whose `widths` accessor fails structurally. -/
def c8pfB : PdfFontDesc :=
  { is_cid := false
    encoding := none
    to_unicode := Except.ok none
    cid_to_gid_map := none
    widths := Except.error (PdfError.upstream 2)
    name := some "C8" }

/-- Descriptor with no display name. -/
def c8pfC : PdfFontDesc :=
  { is_cid := false
    encoding := none
    to_unicode := Except.ok none
    cid_to_gid_map := none
    widths := Except.ok none
    name := none }

/-- Library whose glyph-name table knows `alpha` only. -/
def c9lib : EncodingLib :=
  { encTo := fun _ _ => none
    forward_map := fun _ _ => none
    glyphname_to_unicode := fun nm =>
      if nm = ['a', 'l', 'p', 'h', 'a'] then some [945] else none }

/-- Glyph source resolving the dotted variant name `alpha.sc` only. -/
def c9font : GlyphSource :=
  { encoding := none
    gid_for_codepoint := fun _ => none
    gid_for_unicode_codepoint := fun _ => none
    gid_for_name := fun nm =>
      if nm = ['a', 'l', 'p', 'h', 'a', '.', 's', 'c'] then some 12 else none }

/-- Differences entry with a dotted glyph name. -/
def c9dict : PdfEncodingDict :=
  { base := BaseEncoding.other "E",
    differences := [(3, ['a', 'l', 'p', 'h', 'a', '.', 's', 'c'])] }

/-- Glyph source resolving the name `g` (for the 32-bit differences key
instance). -/
def c10font : GlyphSource :=
  { encoding := none
    gid_for_codepoint := fun _ => none
    gid_for_unicode_codepoint := fun _ => none
    gid_for_name := fun nm => if nm = ['g'] then some 11 else none }

/-! ### Generic lemmas about the insertion-list cmap model -/

/-- A fold that conditionally inserts is the reversed `filterMap` of its
per-element results, prepended to the accumulator. -/
theorem foldl_condInsert {α β : Type} (cond : α → Option β) (key : α → Nat)
    (val : α → β → Entry) (l : List α) (acc : Cmap) :
    l.foldl (fun m a => condInsertStep m (key a) (cond a) (val a)) acc
    = (l.filterMap (fun a => (cond a).map (fun x => (key a, val a x)))).reverse ++ acc := by
  induction l generalizing acc with
  | nil => simp
  | cons a l ih =>
    rw [List.foldl_cons, List.filterMap_cons]
    cases h : cond a with
    | none => exact ih acc
    | some x =>
      rw [ih]
      simp [condInsertStep, cmapInsert, List.reverse_cons, List.append_assoc]

/-- A fold that unconditionally inserts is the reversed `map` of its
per-element items, prepended to the accumulator. -/
theorem foldl_allInsert {α : Type} (key : α → Nat) (val : α → Entry)
    (l : List α) (acc : Cmap) :
    l.foldl (fun m a => cmapInsert m (key a) (val a)) acc
    = (l.map (fun a => (key a, val a))).reverse ++ acc := by
  induction l generalizing acc with
  | nil => simp
  | cons a l ih =>
    rw [List.foldl_cons, List.map_cons, List.reverse_cons, List.append_assoc]
    exact ih _

/-- `find?` returns the unique element satisfying the predicate. -/
theorem find?_of_unique {α : Type} {p : α → Bool} {l : List α} {a : α}
    (ha : a ∈ l) (hpa : p a = true) (huniq : ∀ b ∈ l, p b = true → b = a) :
    l.find? p = some a := by
  induction l with
  | nil => cases ha
  | cons c l ih =>
    by_cases hc : p c = true
    · have hca : c = a := huniq c (List.mem_cons_self c l) hc
      rw [List.find?_cons_of_pos l hc, hca]
    · rw [List.find?_cons_of_neg l hc]
      have ha' : a ∈ l := by
        rcases List.mem_cons.mp ha with h | h
        · exact absurd (h ▸ hpa) hc
        · exact h
      exact ih ha' (fun b hb hpb => huniq b (List.mem_cons_of_mem c hb) hpb)

/-- On a reversed list, `find?` returns the hit with the greatest index. -/
theorem find?_reverse_of_max {α : Type} {p : α → Bool} {l : List α} {J : Nat}
    {v : α} (hJ : l[J]? = some v) (hp : p v = true)
    (hmax : ∀ j w, l[j]? = some w → p w = true → j ≤ J) :
    l.reverse.find? p = some v := by
  induction l using List.reverseRecOn generalizing J with
  | nil => simp at hJ
  | append_singleton l a ih =>
    have hJlt : J < l.length + 1 := by
      have := (List.getElem?_eq_some.mp hJ).1
      simpa using this
    rw [List.reverse_append, List.reverse_singleton, List.singleton_append]
    by_cases hpa : p a = true
    · have hJl : J = l.length := by
        have h1 : l.length ≤ J :=
          hmax l.length a (List.getElem?_concat_length l a) hpa
        omega
      have hva : v = a := by
        rw [hJl, List.getElem?_concat_length] at hJ
        exact (Option.some.inj hJ).symm
      rw [List.find?_cons_of_pos _ hpa, hva]
    · have hJne : J ≠ l.length := by
        intro h
        rw [h, List.getElem?_concat_length] at hJ
        exact hpa ((Option.some.inj hJ) ▸ hp)
      have hJl : J < l.length := by omega
      have hJ' : l[J]? = some v := by
        rw [List.getElem?_append_left hJl] at hJ
        exact hJ
      rw [List.find?_cons_of_neg _ hpa]
      refine ih hJ' ?_
      intro j w hj hw
      have hjl : j < l.length := (List.getElem?_eq_some.mp hj).1
      exact hmax j w (by rw [List.getElem?_append_left hjl]; exact hj) hw

/-- Lookup of the unique binding for a key. -/
theorem cmapGet_of_unique {l : Cmap} {k : Nat} {v : Entry}
    (h : (k, v) ∈ l) (huniq : ∀ p ∈ l, p.1 = k → p = (k, v)) :
    cmapGet l k = some v := by
  unfold cmapGet
  rw [find?_of_unique h (by simp)
    (fun b hb hpb => huniq b hb (by simpa using hpb))]
  rfl

/-- Lookup distributes over append, left-biased. -/
theorem cmapGet_append (l₁ l₂ : Cmap) (k : Nat) :
    cmapGet (l₁ ++ l₂) k = (cmapGet l₁ k).or (cmapGet l₂ k) := by
  unfold cmapGet
  rw [List.find?_append]
  cases l₁.find? (fun p => p.1 == k) <;> simp

/-- A list none of whose keys is `k` contributes nothing at `k`. -/
theorem cmapGet_eq_none {l : Cmap} {k : Nat} (h : ∀ p ∈ l, p.1 ≠ k) :
    cmapGet l k = none := by
  unfold cmapGet
  rw [List.find?_eq_none.mpr (fun x hx => by simpa using h x hx)]
  rfl

/-- A successful lookup means the cmap is not empty. -/
theorem cmapIsEmpty_eq_false_of_get {l : Cmap} {k : Nat} {v : Entry}
    (h : cmapGet l k = some v) : cmapIsEmpty l = false := by
  cases l with
  | nil => simp [cmapGet] at h
  | cons a l => rfl

/-! ### Characterizations of the cmap-building passes -/

/-- The CID-branch cmap is the reversed enumeration of the array. -/
theorem cidCmap_eq (tu : Option ToUnicodeMap) (map : List Nat) :
    cidCmap tu map
    = (map.enum.map (fun p =>
        (p.1 % 65536,
         (p.2, (tu.bind (fun u => u (p.1 % 65536))).bind List.head?)))).reverse := by
  unfold cidCmap
  rw [foldl_allInsert (fun p => p.1 % 65536)
    (fun p => (p.2, (tu.bind (fun u => u (p.1 % 65536))).bind List.head?)) map.enum []]
  simp

/-- Transcoder pass: both encodings defined and a transcoder exists. -/
theorem simplePassCmap_transcoder {lib : EncodingLib} {font : GlyphSource}
    {s d : Encoding} {tr : Transcoder} (h : lib.encTo s d = some tr) :
    simplePassCmap lib font (some s) (some d)
    = ((List.range 256).filterMap (fun b =>
        ((tr b).bind font.gid_for_codepoint).map
          (fun gid => (b, (gid, lib.forward_map s (b % 256)))))).reverse := by
  have h1 : simplePassCmap lib font (some s) (some d)
      = transcoderPass lib font s d := rfl
  rw [h1, transcoderPass, h]
  show (List.range 256).foldl
      (fun m b =>
        condInsertStep m b ((tr b).bind font.gid_for_codepoint)
          (fun gid => (gid, lib.forward_map s (b % 256))))
      [] = _
  rw [foldl_condInsert (fun b => (tr b).bind font.gid_for_codepoint)
    (fun b => b) (fun b gid => (gid, lib.forward_map s (b % 256)))
    (List.range 256) []]
  simp

/-- Both encodings defined but no transcoder: the pass inserts nothing. -/
theorem simplePassCmap_no_transcoder {lib : EncodingLib} {font : GlyphSource}
    {s d : Encoding} (h : lib.encTo s d = none) :
    simplePassCmap lib font (some s) (some d) = [] := by
  have h1 : simplePassCmap lib font (some s) (some d)
      = transcoderPass lib font s d := rfl
  rw [h1, transcoderPass, h]

/-- Source defined, font declares no native encoding: Unicode pass. -/
theorem simplePassCmap_unicode {lib : EncodingLib} {font : GlyphSource}
    {s : Encoding} {enc : Transcoder} (h : lib.encTo s Encoding.unicode = some enc) :
    simplePassCmap lib font (some s) none
    = ((List.range 256).filterMap (fun b =>
        ((enc b).bind font.gid_for_unicode_codepoint).map
          (fun gid => (b, (gid, (enc b).bind char_from_u32))))).reverse := by
  have h1 : simplePassCmap lib font (some s) none
      = unicodePass lib font s := rfl
  rw [h1, unicodePass, h]
  show (List.range 256).foldl
      (fun m b =>
        condInsertStep m b ((enc b).bind font.gid_for_unicode_codepoint)
          (fun gid => (gid, (enc b).bind char_from_u32)))
      [] = _
  rw [foldl_condInsert (fun b => (enc b).bind font.gid_for_unicode_codepoint)
    (fun b => b) (fun b gid => (gid, (enc b).bind char_from_u32))
    (List.range 256) []]
  simp

/-- Source undefined: the identity fallback pass. -/
theorem simplePassCmap_fallback (lib : EncodingLib) (font : GlyphSource)
    (fenc : Option Encoding) :
    simplePassCmap lib font none fenc
    = ((List.range 256).filterMap (fun cp =>
        (font.gid_for_codepoint cp).map
          (fun gid => (cp % 65536, (gid, char_from_u32 (0xf000 + cp)))))).reverse := by
  have h1 : simplePassCmap lib font none fenc = fallbackPass font := by
    cases fenc <;> rfl
  rw [h1, fallbackPass]
  rw [foldl_condInsert (fun cp => font.gid_for_codepoint cp)
    (fun cp => cp % 65536) (fun cp gid => (gid, char_from_u32 (0xf000 + cp)))
    (List.range 256) []]
  simp

/-- The differences overlay prepends its reversed per-pair results. -/
theorem applyDifferences_eq (lib : EncodingLib) (font : GlyphSource)
    (diffs : List (Nat × GlyphName)) (m : Cmap) :
    applyDifferences lib font diffs m
    = (diffs.filterMap (fun p =>
        (font.gid_for_name p.2).map
          (fun gid => (p.1 % 65536, (gid, diffUnicode lib p.2))))).reverse ++ m := by
  unfold applyDifferences
  exact foldl_condInsert (fun p => font.gid_for_name p.2) (fun p => p.1 % 65536)
    (fun p gid => (gid, diffUnicode lib p.2)) diffs m

/-- `simpleCmap` with an encoding dictionary: pass then differences overlay. -/
theorem simpleCmap_some (lib : EncodingLib) (font : GlyphSource)
    (ed : PdfEncodingDict) :
    simpleCmap lib font (some ed)
    = applyDifferences lib font ed.differences
        (simplePassCmap lib font (sourceEncodingOf (some ed.base)) font.encoding) := rfl

/-- `simpleCmap` without an encoding dictionary: just the fallback pass. -/
theorem simpleCmap_none (lib : EncodingLib) (font : GlyphSource) :
    simpleCmap lib font none = simplePassCmap lib font none font.encoding := rfl

/-! ### Lookup lemmas for the passes and the overlay -/

/-- Lookup in a reversed `filterMap` over `range 256` whose hit at `b` is
unique. -/
theorem cmapGet_filterMap_range {g : Nat → Option (Nat × Entry)} {b : Nat}
    {v : Entry} (hb : b < 256) (hgb : g b = some (b, v))
    (hkey : ∀ a, a < 256 → ∀ q, g a = some q → q.1 = b → a = b) :
    cmapGet ((List.range 256).filterMap g).reverse b = some v := by
  apply cmapGet_of_unique
  · rw [List.mem_reverse, List.mem_filterMap]
    exact ⟨b, List.mem_range.mpr hb, hgb⟩
  · intro p hp hpk
    rw [List.mem_reverse, List.mem_filterMap] at hp
    obtain ⟨a, ha, hga⟩ := hp
    have hab : a = b := hkey a (List.mem_range.mp ha) p hga hpk
    rw [hab] at hga
    rw [hgb] at hga
    exact (Option.some.inj hga).symm

/-- The differences overlay puts the pair's own entry at `code % 2^16` when
the glyph name resolves and no other pair collides with that key. -/
theorem applyDiff_get_resolved {lib : EncodingLib} {font : GlyphSource}
    {diffs : List (Nat × GlyphName)} {m : Cmap} {c : Nat} {n : GlyphName} {g : GlyphId}
    (hmem : (c, n) ∈ diffs)
    (hinj : ∀ p ∈ diffs, ∀ q ∈ diffs, p.1 % 65536 = q.1 % 65536 → p = q)
    (hg : font.gid_for_name n = some g) :
    cmapGet (applyDifferences lib font diffs m) (c % 65536)
      = some (g, diffUnicode lib n) := by
  rw [applyDifferences_eq, cmapGet_append]
  have hleft : cmapGet (diffs.filterMap (fun p =>
      (font.gid_for_name p.2).map
        (fun gid => (p.1 % 65536, (gid, diffUnicode lib p.2))))).reverse (c % 65536)
      = some (g, diffUnicode lib n) := by
    apply cmapGet_of_unique
    · rw [List.mem_reverse, List.mem_filterMap]
      exact ⟨(c, n), hmem, by rw [hg]; rfl⟩
    · intro q hq hqk
      rw [List.mem_reverse, List.mem_filterMap] at hq
      obtain ⟨p, hp, hfp⟩ := hq
      cases hgp : font.gid_for_name p.2 with
      | none => rw [hgp] at hfp; cases hfp
      | some gid =>
        rw [hgp] at hfp
        have hq1 : q.1 = p.1 % 65536 := by
          rw [← Option.some.inj hfp]
        have hpc : p = (c, n) := hinj p hp (c, n) hmem (by rw [← hq1, hqk])
        rw [hpc] at hfp
        rw [hpc] at hgp
        have : gid = g := Option.some.inj (hgp.symm.trans hg)
        rw [← Option.some.inj hfp, this]
  rw [hleft]
  rfl

/-- The differences overlay leaves a key alone when every pair colliding with
that key has an unresolvable glyph name. -/
theorem applyDiff_get_skipped {lib : EncodingLib} {font : GlyphSource}
    {diffs : List (Nat × GlyphName)} {m : Cmap} {k : Nat}
    (hnone : ∀ p ∈ diffs, p.1 % 65536 = k → font.gid_for_name p.2 = none) :
    cmapGet (applyDifferences lib font diffs m) k = cmapGet m k := by
  rw [applyDifferences_eq, cmapGet_append]
  have hleft : cmapGet (diffs.filterMap (fun p =>
      (font.gid_for_name p.2).map
        (fun gid => (p.1 % 65536, (gid, diffUnicode lib p.2))))).reverse k
      = none := by
    apply cmapGet_eq_none
    intro q hq
    rw [List.mem_reverse, List.mem_filterMap] at hq
    obtain ⟨p, hp, hfp⟩ := hq
    cases hgp : font.gid_for_name p.2 with
    | none => rw [hgp] at hfp; cases hfp
    | some gid =>
      rw [hgp] at hfp
      have hq1 : q.1 = p.1 % 65536 := by
        rw [← Option.some.inj hfp]
      rw [hq1]
      intro hk
      have := hnone p hp hk
      rw [this] at hgp
      cases hgp
  rw [hleft, Option.none_or]

/-! ### Shape lemmas for `build` and `resolvedEncoding` -/

/-- Successful construction decomposes into the three accessor successes and
the resolved encoding. -/
theorem build_ok_elim {lib : EncodingLib} {font : GlyphSource}
    {pf : PdfFontDesc} {fe : FontEntry}
    (h : FontEntry.build lib font pf = Except.ok fe) :
    ∃ tu w nm, pf.to_unicode = Except.ok tu ∧ pf.widths = Except.ok w ∧
      pf.name = some nm ∧
      fe = { font := font, pdf_font := pf,
             encoding := (resolvedEncoding lib font pf tu).1,
             widths := w,
             is_cid := (resolvedEncoding lib font pf tu).2,
             name := nm } := by
  unfold FontEntry.build at h
  cases htu : pf.to_unicode with
  | error e => rw [htu] at h; cases h
  | ok tu =>
    rw [htu] at h
    cases hw : pf.widths with
    | error e => rw [hw] at h; cases h
    | ok w =>
      rw [hw] at h
      cases hn : pf.name with
      | none => rw [hn] at h; cases h
      | some nm =>
        rw [hn] at h
        refine ⟨tu, w, nm, rfl, rfl, rfl, ?_⟩
        exact (Except.ok.inj h).symm

/-- CID-array branch of the decision tree. -/
theorem resolvedEncoding_cid {lib : EncodingLib} {font : GlyphSource}
    {pf : PdfFontDesc} {tu : Option ToUnicodeMap} {map : List Nat}
    (h : pf.cid_to_gid_map = some map) :
    resolvedEncoding lib font pf tu = (TextEncoding.Cmap (cidCmap tu map), true) := by
  unfold resolvedEncoding
  rw [h]

/-- Identity-H branch of the decision tree. -/
theorem resolvedEncoding_identityH {lib : EncodingLib} {font : GlyphSource}
    {pf : PdfFontDesc} {tu : Option ToUnicodeMap}
    (hcid : pf.cid_to_gid_map = none)
    (hbase : pf.encoding.map (fun e => e.base) = some BaseEncoding.identityH) :
    resolvedEncoding lib font pf tu = (TextEncoding.CID, true) := by
  unfold resolvedEncoding
  rw [hcid]
  simp [hbase]

/-- Simple-byte-encoding branch of the decision tree. -/
theorem resolvedEncoding_simple {lib : EncodingLib} {font : GlyphSource}
    {pf : PdfFontDesc} {tu : Option ToUnicodeMap}
    (hcid : pf.cid_to_gid_map = none)
    (hbase : pf.encoding.map (fun e => e.base) ≠ some BaseEncoding.identityH) :
    resolvedEncoding lib font pf tu
      = if cmapIsEmpty (simpleCmap lib font pf.encoding) then
          (TextEncoding.CID, pf.is_cid)
        else
          (TextEncoding.Cmap (simpleCmap lib font pf.encoding), pf.is_cid) := by
  unfold resolvedEncoding
  rw [hcid]
  simp [hbase]

/-- Successful construction from the three accessor successes. -/
theorem build_ok_intro {lib : EncodingLib} {font : GlyphSource}
    {pf : PdfFontDesc} {tu : Option ToUnicodeMap} {w : Option Widths}
    {nm : String} (htu : pf.to_unicode = Except.ok tu)
    (hw : pf.widths = Except.ok w) (hnm : pf.name = some nm) :
    FontEntry.build lib font pf = Except.ok
      { font := font, pdf_font := pf,
        encoding := (resolvedEncoding lib font pf tu).1,
        widths := w,
        is_cid := (resolvedEncoding lib font pf tu).2,
        name := nm } := by
  unfold FontEntry.build
  rw [htu, hw, hnm]

/-! ### Claim theorems -/

/-- C1: with an explicit CID-to-glyph-index array (of at most 2^16 entries,
the code space of the `u16`-keyed map), `build` marks the font CID and the
Explicit Map binds every array index `i` to the stored glyph index `array[i]`
paired with the first character of the code-to-Unicode string for `i`,
whatever the declared base encoding is. -/
theorem cid_array_verbatim {lib : EncodingLib} {font : GlyphSource}
    {pf : PdfFontDesc} {map : List Nat} {tu : Option ToUnicodeMap}
    {fe : FontEntry}
    (hmap : pf.cid_to_gid_map = some map)
    (hlen : map.length ≤ 65536)
    (htu : pf.to_unicode = Except.ok tu)
    (hok : FontEntry.build lib font pf = Except.ok fe) :
    fe.is_cid = true ∧
    fe.encoding = TextEncoding.Cmap (cidCmap tu map) ∧
    ∀ i, (hi : i < map.length) →
      cmapGet (cidCmap tu map) i
        = some (map[i], (tu.bind (fun u => u i)).bind List.head?) := by
  obtain ⟨tu', w, nm, htu', hw, hn, hfe⟩ := build_ok_elim hok
  have htueq : tu = tu' := Except.ok.inj (htu.symm.trans htu')
  subst htueq
  refine ⟨?_, ?_, ?_⟩
  · rw [hfe, resolvedEncoding_cid hmap]
  · rw [hfe, resolvedEncoding_cid hmap]
  · intro i hi
    have hmod : i % 65536 = i := Nat.mod_eq_of_lt (lt_of_lt_of_le hi hlen)
    rw [cidCmap_eq]
    apply cmapGet_of_unique
    · rw [List.mem_reverse]
      have h1 : (map.enum.map (fun p =>
          (p.1 % 65536,
           (p.2, (tu.bind (fun u => u (p.1 % 65536))).bind List.head?))))[i]?
          = some (i % 65536,
              (map[i], (tu.bind (fun u => u (i % 65536))).bind List.head?)) := by
        rw [List.getElem?_map, List.getElem?_enum, List.getElem?_eq_getElem hi]
        rfl
      rw [hmod] at h1
      exact List.getElem?_mem h1
    · intro q hq hq1
      rw [List.mem_reverse, List.mem_map] at hq
      obtain ⟨⟨j, a⟩, hp, hitem⟩ := hq
      obtain ⟨hjlt, ha⟩ := List.mem_enum hp
      have hjmod : j % 65536 = j := Nat.mod_eq_of_lt (lt_of_lt_of_le hjlt hlen)
      have hji : j = i := by
        have hqj : q.1 = j := by rw [← hitem, hjmod]
        rw [hqj] at hq1
        exact hq1
      subst hji
      rw [← hitem, ha, hjmod]

/-- C1 witness: a two-entry array yields a CID-flagged entry whose map binds
index 0 to glyph 5 with no Unicode association. -/
theorem cid_array_verbatim_witness :
    c1fe.is_cid = true ∧
    c1fe.encoding = TextEncoding.Cmap (cidCmap none [5, 6]) ∧
    cmapGet (cidCmap none [5, 6]) 0 = some (5, none) := by
  have h := @cid_array_verbatim noLib noFont c1pf [5, 6] none c1fe
    rfl (by decide) rfl rfl
  refine ⟨h.1, h.2.1, ?_⟩
  have h2 := h.2.2 0 (by decide)
  simpa using h2

/-- C3: no CID array and an IdentityH base encoding give CID passthrough with
the CID flag set. -/
theorem identityH_passthrough {lib : EncodingLib} {font : GlyphSource}
    {pf : PdfFontDesc} {ed : PdfEncodingDict} {fe : FontEntry}
    (hcid : pf.cid_to_gid_map = none)
    (henc : pf.encoding = some ed)
    (hbase : ed.base = BaseEncoding.identityH)
    (hok : FontEntry.build lib font pf = Except.ok fe) :
    fe.encoding = TextEncoding.CID ∧ fe.is_cid = true := by
  obtain ⟨tu, w, nm, htu, hw, hn, hfe⟩ := build_ok_elim hok
  have hb : pf.encoding.map (fun e => e.base) = some BaseEncoding.identityH := by
    rw [henc, Option.map_some', hbase]
  rw [hfe, resolvedEncoding_identityH hcid hb]
  exact ⟨rfl, rfl⟩

/-- C3 witness: the IdentityH descriptor builds to CID passthrough. -/
theorem identityH_passthrough_witness :
    c3fe.encoding = TextEncoding.CID ∧ c3fe.is_cid = true :=
  @identityH_passthrough noLib noFont c3pf
    { base := BaseEncoding.identityH, differences := [] } c3fe
    rfl rfl rfl rfl

/-- C6: under the identity fallback (undefined source encoding), a byte `b`
whose direct codepoint lookup succeeds is inserted with the Private-Use-Area
character `0xF000 + b`. -/
theorem fallback_pua {lib : EncodingLib} {font : GlyphSource}
    {fenc : Option Encoding} {b : Nat} {g : GlyphId}
    (hb : b < 256) (hg : font.gid_for_codepoint b = some g) :
    cmapGet (simplePassCmap lib font none fenc) b
      = some (g, some (0xf000 + b)) := by
  rw [simplePassCmap_fallback]
  have hmod : b % 65536 = b := Nat.mod_eq_of_lt (by omega)
  have hchar : char_from_u32 (0xf000 + b) = some (0xf000 + b) := by
    unfold char_from_u32
    rw [if_pos]
    constructor <;> omega
  apply cmapGet_filterMap_range hb
  · rw [hg, Option.map_some', hmod, hchar]
  · intro a ha q hq hq1
    cases hga : font.gid_for_codepoint a with
    | none => rw [hga] at hq; cases hq
    | some gid =>
      rw [hga, Option.map_some'] at hq
      have hqa : q.1 = a % 65536 := by rw [← Option.some.inj hq]
      rw [hqa] at hq1
      omega

/-- C6 witness: byte 2 maps to glyph 4 with synthetic character 0xF002. -/
theorem fallback_pua_witness :
    cmapGet (simplePassCmap noLib c6font none none) 2
      = some (4, some 0xf002) :=
  @fallback_pua noLib c6font none 2 4 (by decide) rfl

/-- C7: in the simple branch, an empty final map degrades to CID passthrough
and a nonempty one is carried as the Explicit Map. -/
theorem empty_map_passthrough {lib : EncodingLib} {font : GlyphSource}
    {pf : PdfFontDesc} {fe : FontEntry}
    (hcid : pf.cid_to_gid_map = none)
    (hbase : pf.encoding.map (fun e => e.base) ≠ some BaseEncoding.identityH)
    (hok : FontEntry.build lib font pf = Except.ok fe) :
    (simpleCmap lib font pf.encoding = [] → fe.encoding = TextEncoding.CID) ∧
    (simpleCmap lib font pf.encoding ≠ [] →
      fe.encoding = TextEncoding.Cmap (simpleCmap lib font pf.encoding)) := by
  obtain ⟨tu, w, nm, htu, hw, hn, hfe⟩ := build_ok_elim hok
  rw [hfe, resolvedEncoding_simple hcid hbase]
  constructor
  · intro hempty
    have h1 : cmapIsEmpty (simpleCmap lib font pf.encoding) = true := by
      rw [hempty]; rfl
    rw [h1]
    simp
  · intro hne
    have h1 : cmapIsEmpty (simpleCmap lib font pf.encoding) = false := by
      cases hmm : simpleCmap lib font pf.encoding with
      | nil => exact absurd hmm hne
      | cons a l => rfl
    rw [h1]
    simp

set_option maxRecDepth 4096 in
/-- C7 witness: a font resolving nothing yields CID passthrough rather than an
empty Explicit Map. -/
theorem empty_map_passthrough_witness :
    c7fe.encoding = TextEncoding.CID :=
  (@empty_map_passthrough noLib noFont c7pf c7fe
    rfl (by decide) rfl).1 (by decide)

/-- C8: structural accessor failures and a missing display name abort
construction with a typed error; no entry value is produced on those paths. -/
theorem fatal_construction_errors (lib : EncodingLib) (font : GlyphSource)
    (pf : PdfFontDesc) :
    (∀ e, pf.to_unicode = Except.error e →
      FontEntry.build lib font pf = Except.error e) ∧
    (∀ tu e, pf.to_unicode = Except.ok tu → pf.widths = Except.error e →
      FontEntry.build lib font pf = Except.error e) ∧
    (∀ tu w, pf.to_unicode = Except.ok tu → pf.widths = Except.ok w →
      pf.name = none →
      FontEntry.build lib font pf
        = Except.error (PdfError.other "font has no name")) := by
  refine ⟨?_, ?_, ?_⟩
  · intro e h
    unfold FontEntry.build
    rw [h]
  · intro tu e h1 h2
    unfold FontEntry.build
    rw [h1, h2]
  · intro tu w h1 h2 h3
    unfold FontEntry.build
    rw [h1, h2, h3]

/-- C8 witness: the three fatal paths on concrete descriptors. -/
theorem fatal_construction_errors_witness :
    FontEntry.build noLib noFont c8pfA
      = Except.error (PdfError.upstream 1) ∧
    FontEntry.build noLib noFont c8pfB
      = Except.error (PdfError.upstream 2) ∧
    FontEntry.build noLib noFont c8pfC
      = Except.error (PdfError.other "font has no name") :=
  ⟨(fatal_construction_errors noLib noFont c8pfA).1 _ rfl,
   (fatal_construction_errors noLib noFont c8pfB).2.1 none _ rfl rfl,
   (fatal_construction_errors noLib noFont c8pfC).2.2 none none rfl rfl rfl⟩

set_option maxRecDepth 8192 in
/-- C2 counterexample: with source WinAnsi and destination AdobeStandard both
defined but no transcoder between them (`noLib`), `build` returns CID
passthrough carrying no entries, although the identity fallback on the same
glyph source would have mapped byte 0 (and every other byte). -/
theorem no_transcoder_fallback_counterexample :
    (FontEntry.build noLib c2font c2pf).map (fun fe => fe.encoding)
      = Except.ok TextEncoding.CID ∧
    cmapGet (fallbackPass c2font) 0 = some (1, some 0xf000) := by
  constructor
  · rfl
  · decide

/-- C2 (amended): when the source and destination named encodings are both
defined but no transcoder exists between them, the byte pass contributes no
entries at all (the identity fallback is not applied), and the condition is
not fatal: construction still succeeds when the accessors do. -/
theorem no_transcoder_skips_pass {lib : EncodingLib} {font : GlyphSource}
    {pf : PdfFontDesc} {ed : PdfEncodingDict} {s d : Encoding}
    {tu : Option ToUnicodeMap} {w : Option Widths} {nm : String}
    (hcid : pf.cid_to_gid_map = none)
    (henc : pf.encoding = some ed)
    (hsrc : sourceEncodingOf (some ed.base) = some s)
    (hdest : font.encoding = some d)
    (htr : lib.encTo s d = none)
    (htu : pf.to_unicode = Except.ok tu)
    (hw : pf.widths = Except.ok w)
    (hnm : pf.name = some nm) :
    simplePassCmap lib font (sourceEncodingOf (some ed.base)) font.encoding = [] ∧
    ∃ fe, FontEntry.build lib font pf = Except.ok fe := by
  constructor
  · rw [hsrc, hdest]
    exact simplePassCmap_no_transcoder htr
  · exact ⟨_, build_ok_intro htu hw hnm⟩

/-- C2 witness: the amended statement on the concrete counterexample inputs. -/
theorem no_transcoder_skips_pass_witness :
    simplePassCmap noLib c2font (some Encoding.winAnsiEncoding)
      (some Encoding.adobeStandard) = [] ∧
    ∃ fe, FontEntry.build noLib c2font c2pf = Except.ok fe :=
  @no_transcoder_skips_pass noLib c2font c2pf
    { base := BaseEncoding.winAnsiEncoding, differences := [] }
    Encoding.winAnsiEncoding Encoding.adobeStandard none none "C2"
    rfl rfl rfl rfl rfl rfl rfl rfl

/-- C4: with both encodings defined and a transcoder, a byte whose transcoded
codepoint resolves to a glyph is bound to that glyph paired with the source
encoding's own forward-map character for that byte (provided no differences
entry overrides the byte). -/
theorem transcoder_pass_entry {lib : EncodingLib} {font : GlyphSource}
    {pf : PdfFontDesc} {ed : PdfEncodingDict} {s d : Encoding} {tr : Transcoder}
    {b cp : Nat} {g : GlyphId} {fe : FontEntry}
    (hcid : pf.cid_to_gid_map = none)
    (henc : pf.encoding = some ed)
    (hsrc : sourceEncodingOf (some ed.base) = some s)
    (hdest : font.encoding = some d)
    (htr : lib.encTo s d = some tr)
    (hb : b < 256)
    (hcp : tr b = some cp)
    (hg : font.gid_for_codepoint cp = some g)
    (hdiff : ∀ p ∈ ed.differences, p.1 % 65536 = b → font.gid_for_name p.2 = none)
    (hok : FontEntry.build lib font pf = Except.ok fe) :
    fe.encoding = TextEncoding.Cmap (simpleCmap lib font (some ed)) ∧
    cmapGet (simpleCmap lib font (some ed)) b = some (g, lib.forward_map s b) := by
  have hbmod : b % 256 = b := Nat.mod_eq_of_lt hb
  have hget : cmapGet (simpleCmap lib font (some ed)) b
      = some (g, lib.forward_map s b) := by
    rw [simpleCmap_some, hsrc, hdest]
    rw [applyDiff_get_skipped hdiff]
    rw [simplePassCmap_transcoder htr]
    apply cmapGet_filterMap_range hb
    · rw [hcp, Option.some_bind, hg, Option.map_some', hbmod]
    · intro a ha q hq hq1
      cases hqa : (tr a).bind font.gid_for_codepoint with
      | none => rw [hqa] at hq; cases hq
      | some gid =>
        rw [hqa, Option.map_some'] at hq
        have hqah : q.1 = a := by rw [← Option.some.inj hq]
        rw [hqah] at hq1
        exact hq1
  have hbase : pf.encoding.map (fun e => e.base) ≠ some BaseEncoding.identityH := by
    intro hcon
    rw [henc, Option.map_some'] at hcon
    have hedb : ed.base = BaseEncoding.identityH := Option.some.inj hcon
    rw [hedb] at hsrc
    exact Option.noConfusion hsrc
  refine ⟨?_, hget⟩
  obtain ⟨tu, w, nm, htu, hw, hn, hfe⟩ := build_ok_elim hok
  rw [hfe, resolvedEncoding_simple hcid hbase]
  have hne : cmapIsEmpty (simpleCmap lib font pf.encoding) = false := by
    rw [henc]
    exact cmapIsEmpty_eq_false_of_get hget
  rw [hne]
  simp [henc]

set_option maxRecDepth 8192 in
/-- C4 witness: byte 65 under WinAnsi transcoding resolves to glyph 7, the
same glyph the font returns for Unicode 65 (character A), with associated
character 65. -/
theorem transcoder_pass_entry_witness :
    cmapGet (simpleCmap c4lib c4font (some c4dict)) 65 = some (7, some 65) ∧
    c4font.gid_for_unicode_codepoint 65 = some 7 := by
  have h := @transcoder_pass_entry c4lib c4font c4pf c4dict
    Encoding.winAnsiEncoding Encoding.macRomanEncoding c4tr 65 1065 7 c4fe
    rfl rfl rfl rfl rfl (by decide) rfl rfl
    (fun p hp _ => absurd hp (List.not_mem_nil p)) (by rfl)
  exact ⟨h.2.trans (by rfl), rfl⟩

/-- C5: in the simple branch, a differences pair whose name resolves gives the
final entry for its code (overriding whatever the pass produced), and a pair
whose name does not resolve leaves the pass entry for its code untouched;
construction succeeds either way. -/
theorem differences_override {lib : EncodingLib} {font : GlyphSource}
    {pf : PdfFontDesc} {ed : PdfEncodingDict} {c : Nat} {n : GlyphName}
    {tu : Option ToUnicodeMap} {w : Option Widths} {nm : String}
    (hcid : pf.cid_to_gid_map = none)
    (henc : pf.encoding = some ed)
    (hbase : ed.base ≠ BaseEncoding.identityH)
    (hmem : (c, n) ∈ ed.differences)
    (hinj : ∀ p ∈ ed.differences, ∀ q ∈ ed.differences,
      p.1 % 65536 = q.1 % 65536 → p = q)
    (htu : pf.to_unicode = Except.ok tu)
    (hw : pf.widths = Except.ok w)
    (hnm : pf.name = some nm) :
    ∃ fe, FontEntry.build lib font pf = Except.ok fe ∧
      (∀ g, font.gid_for_name n = some g →
        fe.encoding = TextEncoding.Cmap (simpleCmap lib font (some ed)) ∧
        cmapGet (simpleCmap lib font (some ed)) (c % 65536)
          = some (g, diffUnicode lib n)) ∧
      (font.gid_for_name n = none →
        cmapGet (simpleCmap lib font (some ed)) (c % 65536)
          = cmapGet (simplePassCmap lib font (sourceEncodingOf (some ed.base))
              font.encoding) (c % 65536)) := by
  have hbase' : pf.encoding.map (fun e => e.base) ≠ some BaseEncoding.identityH := by
    rw [henc, Option.map_some']
    intro hcon
    exact hbase (Option.some.inj hcon)
  refine ⟨_, build_ok_intro htu hw hnm, ?_, ?_⟩
  · intro g hg
    have hget : cmapGet (simpleCmap lib font (some ed)) (c % 65536)
        = some (g, diffUnicode lib n) := by
      rw [simpleCmap_some]
      exact applyDiff_get_resolved hmem hinj hg
    refine ⟨?_, hget⟩
    rw [resolvedEncoding_simple hcid hbase']
    have hne : cmapIsEmpty (simpleCmap lib font pf.encoding) = false := by
      rw [henc]
      exact cmapIsEmpty_eq_false_of_get hget
    rw [hne]
    simp [henc]
  · intro hnone
    rw [simpleCmap_some]
    apply applyDiff_get_skipped
    intro p hp hpk
    have hpc : p = (c, n) := hinj p hp (c, n) hmem hpk
    rw [hpc]
    exact hnone

/-- C5 witness: the differences pair for code 0 (name `beta`, glyph 9)
overrides the fallback-pass entry (glyph 3) for code 0. -/
theorem differences_override_witness :
    cmapGet (simpleCmap noLib c5font (some c5dict)) (0 % 65536)
      = some (9, diffUnicode noLib ['b', 'e', 't', 'a']) := by
  obtain ⟨fe, hok, hres, hskip⟩ := @differences_override noLib c5font c5pf
    c5dict 0 ['b', 'e', 't', 'a'] none none "C5"
    rfl rfl (by decide) (by decide) (by decide) rfl rfl rfl
  exact (hres 9 (by decide)).2

/-- C9: a resolvable differences pair is always inserted, with Unicode looked
up by the full glyph name first, retried on the prefix before the first dot
when the full lookup fails and the name has a dot, and absent (yet still
inserted) when both lookups fail. -/
theorem differences_unicode_rule {lib : EncodingLib} {font : GlyphSource}
    {ed : PdfEncodingDict} {c : Nat} {n : GlyphName} {g : GlyphId}
    (hmem : (c, n) ∈ ed.differences)
    (hinj : ∀ p ∈ ed.differences, ∀ q ∈ ed.differences,
      p.1 % 65536 = q.1 % 65536 → p = q)
    (hg : font.gid_for_name n = some g) :
    cmapGet (simpleCmap lib font (some ed)) (c % 65536)
      = some (g, diffUnicode lib n) ∧
    (∀ s, lib.glyphname_to_unicode n = some s → diffUnicode lib n = s.head?) ∧
    (lib.glyphname_to_unicode n = none → n.contains '.' = true →
      diffUnicode lib n
        = (lib.glyphname_to_unicode (n.takeWhile (fun ch => ch ≠ '.'))).bind
            List.head?) ∧
    (lib.glyphname_to_unicode n = none → n.contains '.' = false →
      diffUnicode lib n = none) := by
  refine ⟨?_, ?_, ?_, ?_⟩
  · rw [simpleCmap_some]
    exact applyDiff_get_resolved hmem hinj hg
  · intro s hs
    unfold diffUnicode
    rw [hs]
    rfl
  · intro h1 h2
    unfold diffUnicode
    rw [h1, h2]
    simp
  · intro h1 h2
    unfold diffUnicode
    rw [h1, h2]
    simp

/-- C9 witness: the name `alpha.sc` resolves to glyph 12; the full-name
Unicode lookup fails, the prefix `alpha` succeeds, so the entry carries 945
(GREEK SMALL LETTER ALPHA). -/
theorem differences_unicode_rule_witness :
    cmapGet (simpleCmap c9lib c9font (some c9dict)) (3 % 65536)
      = some (12, diffUnicode c9lib ['a', 'l', 'p', 'h', 'a', '.', 's', 'c']) ∧
    diffUnicode c9lib ['a', 'l', 'p', 'h', 'a', '.', 's', 'c'] = some 945 := by
  have h := @differences_unicode_rule c9lib c9font c9dict 3
    ['a', 'l', 'p', 'h', 'a', '.', 's', 'c'] 12
    (by decide) (by decide) (by decide)
  refine ⟨h.1, ?_⟩
  rw [h.2.2.1 (by decide) (by decide)]
  decide

/-- C10: Explicit Map keys are 16-bit. A CID-array index is stored at
`i % 2^16`, the surviving binding for a key class is the one from the largest
colliding index, and a differences code is likewise stored at `code % 2^16`. -/
theorem u16_key_truncation :
    (∀ (tu : Option ToUnicodeMap) (map : List Nat) (i J : Nat)
        (hJ : J < map.length),
      J % 65536 = i % 65536 →
      (∀ j, j < map.length → j % 65536 = i % 65536 → j ≤ J) →
      cmapGet (cidCmap tu map) (i % 65536)
        = some (map[J], (tu.bind (fun u => u (J % 65536))).bind List.head?)) ∧
    (∀ (lib : EncodingLib) (font : GlyphSource) (m : Cmap) (c : Nat)
        (n : GlyphName) (g : GlyphId),
      font.gid_for_name n = some g →
      cmapGet (applyDifferences lib font [(c, n)] m) (c % 65536)
        = some (g, diffUnicode lib n)) := by
  constructor
  · intro tu map i J hJ hJi hmax
    rw [cidCmap_eq]
    unfold cmapGet
    have hfind : ((map.enum.map (fun p =>
        (p.1 % 65536,
         (p.2, (tu.bind (fun u => u (p.1 % 65536))).bind List.head?)))).reverse).find?
          (fun p => p.1 == i % 65536)
        = some (J % 65536,
            (map[J], (tu.bind (fun u => u (J % 65536))).bind List.head?)) := by
      apply find?_reverse_of_max (J := J)
      · rw [List.getElem?_map, List.getElem?_enum, List.getElem?_eq_getElem hJ]
        rfl
      · simp [hJi]
      · intro j q hj hq
        have hjlen : j < map.length := by
          have h1 := (List.getElem?_eq_some.mp hj).1
          rw [List.length_map, List.enum_length] at h1
          exact h1
        rw [List.getElem?_map, List.getElem?_enum,
          List.getElem?_eq_getElem hjlen] at hj
        have hqv : q = (j % 65536,
            (map[j], (tu.bind (fun u => u (j % 65536))).bind List.head?)) :=
          (Option.some.inj hj).symm
        apply hmax j hjlen
        rw [hqv] at hq
        simpa using hq
    rw [hfind]
    rfl
  · intro lib font m c n g hg
    have happ : applyDifferences lib font [(c, n)] m
        = (c % 65536, (g, diffUnicode lib n)) :: m := by
      unfold applyDifferences
      rw [List.foldl_cons, List.foldl_nil]
      simp [condInsertStep, hg, cmapInsert]
    rw [happ]
    unfold cmapGet
    rw [List.find?_cons_of_pos _ (by simp)]
    rfl

/-- C10 witness: index 1 of a two-entry array lands at key `1 % 2^16`, and a
differences code 70000 (beyond `u16`) lands at key `70000 % 2^16 = 4464`. -/
theorem u16_key_truncation_witness :
    cmapGet (cidCmap none [5, 6]) (1 % 65536) = some (6, none) ∧
    cmapGet (applyDifferences noLib c10font [(70000, ['g'])] []) (70000 % 65536)
      = some (11, diffUnicode noLib ['g']) := by
  constructor
  · have h := u16_key_truncation.1 none [5, 6] 1 1 (by decide) rfl
      (fun j hj _ => by simp at hj; omega)
    simpa using h
  · exact u16_key_truncation.2 noLib c10font [] 70000 ['g'] 11 (by decide)
